import Mathlib

/-!
Shallow embedding of the Delphes-to-FCC-EDM graph-translation algorithm
(`DelphesSimulation.cpp`): the vertex/particle converter (`ConvertMCParticles`),
the track and tower converters (`ConvertTracks`, `ConvertTowers`), the recursive
provenance resolver (`findJetPartMC`) and the MET converter (`ConvertMET`).

Modelling conventions:
* `double` fields that the converters only copy (momenta, positions, derived
  `Pt()`, `Phi()`, `M()` values) are modelled as abstract `Int` values, since
  the code performs no arithmetic on them, only copies.
* A Delphes `Candidate` carries plain data plus the `GetCandidates()` list of
  related candidates; it is modelled as a nested inductive (the relation graph
  is acyclic by construction of the upstream engine, so a tree is faithful).
* `std::set<int>` is modelled as a sorted duplicate-free `List Int` with
  ordered insertion (`setInsert`), matching `insert` plus ascending iteration.
* Out-of-bounds vector writes would be undefined behaviour in the C++; the
  slot-update helpers guard on `0 ≤ i` and no-op outside the array, which is
  the only defined-behaviour reading of the source.
-/

/-- Ordered duplicate-free insertion, the model of `std::set<int>::insert`. -/
def setInsert (a : Int) : List Int → List Int
  | [] => [a]
  | b :: l => if a < b then a :: b :: l else if a = b then b :: l else b :: setInsert a l

/-- Iterations of `for (int i=a; ...; i++)` that run `n` more times. -/
def intRangeAux (a : Int) : Nat → List Int
  | 0 => []
  | n + 1 => a :: intRangeAux (a + 1) n

/-- Inclusive integer range `[a..b]`, the model of `for (int i=a; i<=b; i++)`. -/
def intRange (a b : Int) : List Int :=
  intRangeAux a (b + 1 - a).toNat

/-- Data fields of a Delphes `Candidate` that the converters read.  The
`pM`, `pt` and `mphi` fields cache the derived values `Momentum.M()`,
`Momentum.Pt()` and `(-Momentum).Phi()` that the code copies opaquely. -/
structure CandData where
  pid : Int := 0
  status : Int := 0
  charge : Int := 0
  px : Int := 0
  py : Int := 0
  pz : Int := 0
  pM : Int := 0
  pt : Int := 0
  mphi : Int := 0
  mass : Int := 0
  x : Int := 0
  y : Int := 0
  z : Int := 0
  t : Int := 0
  M1 : Int := -1
  M2 : Int := -1
  D1 : Int := -1
  D2 : Int := -1
  btag : Int := 0
  tautag : Int := 0
  uid : Nat := 0
deriving DecidableEq, Repr, Inhabited

/-- A Delphes `Candidate`: its data plus the `GetCandidates()` relation list. -/
inductive Cand where
  | mk (d : CandData) (rel : List Cand)

instance : Inhabited Cand := ⟨Cand.mk default []⟩

/-- The data record of a candidate. -/
def Cand.d : Cand → CandData
  | .mk d _ => d

/-- The `GetCandidates()` relation list of a candidate. -/
def Cand.rel : Cand → List Cand
  | .mk _ r => r

/-- The `GetUniqueID()` value of a candidate. -/
def Cand.uid (c : Cand) : Nat := c.d.uid

/-- Modelled from the spec: the closed status-bit classification of
`ParticleStatus.h` (the header is not part of the translated source); the spec
fixes the five mutually exclusive values `{Beam, Stable, Decayed, Matched,
Unmatched}`. -/
inductive PStatus where
  | kBeam
  | kStable
  | kDecayed
  | kMatched
  | kUnmatched
deriving DecidableEq, Repr

/-- `fcc::BareParticle`: the kinematic core copied by every converter.  `bits`
is `none` while no status bit has been assigned (a default-constructed core). -/
structure BarePart where
  ptype : Int := 0
  pstatus : Int := 0
  px : Int := 0
  py : Int := 0
  pz : Int := 0
  mass : Int := 0
  charge : Int := 0
  vx : Int := 0
  vy : Int := 0
  vz : Int := 0
  bits : Option PStatus := none
deriving DecidableEq, Repr, Inhabited

/-- The core copy performed identically at the top of `ConvertMCParticles`,
`ConvertTracks` and `ConvertTowers` (lines 481-491, 621-631, 710-720). -/
def mkBare (cd : CandData) : BarePart :=
  { ptype := cd.pid, pstatus := cd.status, px := cd.px, py := cd.py, pz := cd.pz,
    mass := cd.pM, charge := cd.charge, vx := cd.x, vy := cd.y, vz := cd.z,
    bits := none }

/-- `fcc::GenVertex`: spatial point plus the `Ctau` value. -/
structure Vtx where
  x : Int
  y : Int
  z : Int
  ctau : Int
deriving DecidableEq, Repr, Inhabited

/-- An output MC particle: its core plus the attached start/end vertex, each
recorded as `(vertex id in the GenVertex collection, vertex value)`. -/
structure MCPart where
  core : BarePart := {}
  startV : Option (Nat × Vtx) := none
  endV : Option (Nat × Vtx) := none
deriving DecidableEq, Repr, Inhabited

/-! ### ConvertMET (lines 966-1003) -/

/-- One `fcc::MET` output entry. -/
structure METOut where
  magnitude : Int
  phi : Int
  scalarSum : Int
deriving DecidableEq, Repr, Inhabited

/-- `ConvertMET`: pairs MET entry `j` with scalar-HT entry `j`; on a length
mismatch it issues one warning for the event and writes `-1` as every entry's
`ScalarSum`.  Returns the MET collection and the number of warnings. -/
def convertMET (inMET inSHT : List Cand) : List METOut × Nat :=
  let saveSHT : Bool := inMET.length = inSHT.length
  ((List.range inMET.length).map (fun j =>
      let m := (inMET.getD j default).d
      { magnitude := m.pt
        phi := m.mphi
        scalarSum := if saveSHT then (inSHT.getD j default).d.pt else -1 }),
   if saveSHT then 0 else 1)

/-! ### ConvertTracks (lines 611-695) -/

/-- One `fcc::ParticleMCParticleAssociation` record: the reconstructed-particle
index and the MC-particle index, each `none` while never set (the association
object is created by `create()` before either end is filled). -/
structure MCAssoc where
  recP : Option Nat := none
  simP : Option Nat := none
deriving DecidableEq, Repr, Inhabited

/-- Whether a track candidate's first related candidate resolves into the MC
collection: the list is non-empty (`GetEntries()>0`) and `GetUniqueID()-1` is
in range (the signed/unsigned comparison `idRefMCPart < colMCParticles->size()`
is false for every negative index). -/
def trackMatched (nMC : Nat) (c : Cand) : Prop :=
  0 < c.rel.length ∧ 0 ≤ (((c.rel.getD 0 default).uid : Int) - 1)
    ∧ (((c.rel.getD 0 default).uid : Int) - 1) < (nMC : Int)

instance (nMC : Nat) (c : Cand) : Decidable (trackMatched nMC c) := by
  unfold trackMatched; infer_instance

/-- The output particle of one track entry: the bare core with `Matched` or
`Unmatched` bits (lines 642, 648, 654). -/
def trackParticle (nMC : Nat) (c : Cand) : BarePart :=
  { mkBare c.d with
    bits := some (if trackMatched nMC c then PStatus.kMatched else PStatus.kUnmatched) }

/-- The association record of one track entry.  `ascColParticlesToMC->create()`
runs unconditionally (line 634); only in the matched branch are its two ends
set (lines 644-645). -/
def trackAssoc (nMC : Nat) (j : Nat) (c : Cand) : MCAssoc :=
  if trackMatched nMC c then
    { recP := some j, simP := some (((c.rel.getD 0 default).uid : Int) - 1).toNat }
  else {}

/-- `ConvertTracks`: one particle and one association record per entry, plus
one warning per unmatched entry.  Returns (particles, associations, warnings). -/
def convertTracks (input : List Cand) (nMC : Nat) :
    List BarePart × List MCAssoc × Nat :=
  (input.map (trackParticle nMC),
   (List.range input.length).map (fun j => trackAssoc nMC j (input.getD j default)),
   (input.filter (fun c => !decide (trackMatched nMC c))).length)

/-! ### ConvertTowers (lines 700-809) -/

/-- The per-tower resolution loop (lines 750-769): iterate the tower's cluster
candidates, then each cluster's related candidates; an in-range
`GetUniqueID()-1` goes into the `std::set<int>` (the signed/unsigned comparison
`id < colMCParticles->size()` is false for negative `id`), an out-of-range one
is skipped with a warning.  Returns (resolved id set, warnings).
`towerRefStep` is the body of the innermost loop, one related candidate at a
time. -/
def towerRefStep (nMC : Nat) (a : List Int × Nat) (rc : Cand) : List Int × Nat :=
  let id : Int := (rc.uid : Int) - 1
  if 0 ≤ id ∧ id < (nMC : Int) then (setInsert id a.1, a.2) else (a.1, a.2 + 1)

def towerResolve (nMC : Nat) (c : Cand) : List Int × Nat :=
  c.rel.foldl (fun acc cls => cls.rel.foldl (towerRefStep nMC) acc) ([], 0)

/-- `ConvertTowers`: one particle per entry (`Bits` never assigned), one
association per distinct resolved MC index (lines 775-779), warnings counted
per skipped out-of-range index.  Returns (particles, associations, warnings). -/
def convertTowers (input : List Cand) (nMC : Nat) :
    List BarePart × List MCAssoc × Nat :=
  (input.map (fun c => mkBare c.d),
   ((List.range input.length).map (fun j =>
      (towerResolve nMC (input.getD j default)).1.map
        (fun id => { recP := some j, simP := some id.toNat : MCAssoc }))).flatten,
   (input.map (fun c => (towerResolve nMC c).2)).sum)

/-! ### findJetPartMC (lines 929-961) -/

mutual

/-- `DelphesSimulation::findJetPartMC`: given a candidate and the size of the
MC-particle collection, accumulate resolved MC indices into the set; a
candidate with no related candidates raises one warning; an in-range
`GetUniqueID()-1` is a base case, an out-of-range one recurses.  Returns
(warnings raised, accumulated set). -/
def findJetPartMC (rangeMCPart : Int) : Cand → List Int → Nat × List Int
  | .mk _ rel, acc =>
    if rel.isEmpty then (1, acc)
    else findJetPartMCList rangeMCPart rel acc

/-- The iteration of `findJetPartMC` over a relation list. -/
def findJetPartMCList (rangeMCPart : Int) : List Cand → List Int → Nat × List Int
  | [], acc => ((0 : Nat), acc)
  | c :: cs, acc =>
    let p :=
      if ((c.uid : Int) - 1) < rangeMCPart then ((0 : Nat), setInsert ((c.uid : Int) - 1) acc)
      else findJetPartMC rangeMCPart c acc
    let q := findJetPartMCList rangeMCPart cs p.2
    (p.1 + q.1, q.2)

end

/-! ### ConvertMCParticles (lines 443-606) -/

/-- The status-bit classification of a generated particle (lines 493-495). -/
def mcBits (cd : CandData) : PStatus :=
  if cd.M1 = -1 then PStatus.kBeam
  else if cd.D1 = -1 then PStatus.kStable
  else PStatus.kDecayed

/-- The core of output MC particle `j`, fully determined by its candidate. -/
def mcCore (cd : CandData) : BarePart :=
  { mkBare cd with bits := some (mcBits cd) }

/-- Write `(·, j)` into slot `i`'s second component if it is still unset
(line 522).  First writer wins; a negative index is out of the vector. -/
def setSndIfUnset (j : Int) (sl : List (Int × Int)) (i : Int) : List (Int × Int) :=
  if 0 ≤ i ∧ (sl.getD i.toNat (-1, -1)).2 = -1 then
    sl.set i.toNat ((sl.getD i.toNat (-1, -1)).1, j)
  else sl

/-- Write `(j, ·)` into slot `i`'s first component if it is still unset
(lines 552, 557, 564).  First writer wins; the source guards `iDaughter>=0`. -/
def setFstIfUnset (j : Int) (sl : List (Int × Int)) (i : Int) : List (Int × Int) :=
  if 0 ≤ i ∧ (sl.getD i.toNat (-1, -1)).1 = -1 then
    sl.set i.toNat (j, (sl.getD i.toNat (-1, -1)).2)
  else sl

/-- Forward propagation to the mothers `[M1..M2]` (lines 521-523). -/
def propagateToMothers (j : Int) (m1 m2 : Int) (sl : List (Int × Int)) : List (Int × Int) :=
  (intRange m1 m2).foldl (setSndIfUnset j) sl

/-- Forward propagation to the daughters `[D1..D2]` (lines 561-566). -/
def propagateToDaughters (j : Int) (d1 d2 : Int) (sl : List (Int × Int)) : List (Int × Int) :=
  (intRange d1 d2).foldl (setFstIfUnset j) sl

/-- Forward propagation to a corrected daughter set (lines 550-558); a
`std::set<int>` iterates in ascending order. -/
def propagateToSet (j : Int) (ds : List Nat) (sl : List (Int × Int)) : List (Int × Int) :=
  ds.foldl (fun s i => setFstIfUnset j s (Int.ofNat i)) sl

/-- The pre-pass of `ConvertMCParticles` (lines 458-473): the candidates whose
mother range `[M1..M2]` contains the beam index (`0` or `1`), collected in
ascending order; the loop `for iMother=M1..M2 { if (iMother==beam) insert(j); }`
inserts `j` exactly when `beam ∈ [M1..M2]`, and runs only when `M1 != -1`. -/
def primaryDaughters (cands : List Cand) (beam : Int) : List Nat :=
  (List.range cands.length).filter (fun j =>
    let cd := (cands.getD j default).d
    decide (cd.M1 ≠ -1 ∧ beam ∈ intRange cd.M1 cd.M2))

/-- The state threaded through the main pass of `ConvertMCParticles`: the
parallel `(startVertexId, endVertexId)` slot array (`-1` = unset), the
MC-particle collection and the GenVertex collection. -/
structure GenState where
  slots : List (Int × Int)
  parts : List MCPart
  vtxs : List Vtx
deriving DecidableEq, Repr, Inhabited

/-- Production-vertex phase of main-pass step `j` (lines 478-524): emit the
core, and if `M1 != -1` either reuse the end vertex of the recorded earlier
particle (line 506) or create a new vertex at the candidate's own position and
time, recording `idPartStartVertex = j` (lines 508-519); then propagate `j` to
its mothers' end slots.  Returns the updated state and the particle so far. -/
def mcProduction (cands : List Cand) (j : Nat) (st : GenState) : GenState × MCPart :=
  let cd := (cands.getD j default).d
  if cd.M1 = -1 then (st, { core := mcCore cd })
  else
    let s := (st.slots.getD j (-1, -1)).1
    let r :=
      if s ≠ -1 then (st, (st.parts.getD s.toNat default).endV)
      else
        let v : Vtx := { x := cd.x, y := cd.y, z := cd.z, ctau := cd.t }
        ({ st with
            vtxs := st.vtxs ++ [v]
            slots := st.slots.set j ((j : Int), (st.slots.getD j (-1, -1)).2) },
         some (st.vtxs.length, v))
    let st2 := { r.1 with slots := propagateToMothers (j : Int) cd.M1 cd.M2 r.1.slots }
    (st2, { core := mcCore cd, startV := r.2 })

/-- Decay-vertex phase of main-pass step `j` (lines 526-567): if `D1 != -1`
either reuse the start vertex of the recorded particle (line 530; the particle
being built is already in the collection) or create a new vertex at the first
daughter's position with the candidate's own time, recording
`idPartEndVertex = D1` (lines 532-543); then propagate `j` to the daughters'
start slots — through the corrected per-beam daughter set when `M1 == -1` and
`j` is `0` or `1` (lines 547-559), through `[D1..D2]` otherwise (561-566). -/
def mcDecay (cands : List Cand) (p1D p2D : List Nat) (j : Nat)
    (stp : GenState × MCPart) : GenState :=
  let st := stp.1
  let p1 := stp.2
  let cd := (cands.getD j default).d
  if cd.D1 = -1 then { st with parts := st.parts ++ [p1] }
  else
    let e := (st.slots.getD j (-1, -1)).2
    let r :=
      if e ≠ -1 then (st, ((st.parts ++ [p1]).getD e.toNat default).startV)
      else
        let dd := (cands.getD cd.D1.toNat default).d
        let v : Vtx := { x := dd.x, y := dd.y, z := dd.z, ctau := cd.t }
        ({ st with
            vtxs := st.vtxs ++ [v]
            slots := st.slots.set j ((st.slots.getD j (-1, -1)).1, cd.D1) },
         some (st.vtxs.length, v))
    let slots2 :=
      if cd.M1 = -1 then
        if j = 0 then propagateToSet (j : Int) p1D r.1.slots
        else if j = 1 then propagateToSet (j : Int) p2D r.1.slots
        else r.1.slots
      else propagateToDaughters (j : Int) cd.D1 cd.D2 r.1.slots
    { r.1 with slots := slots2, parts := st.parts ++ [{ p1 with endV := r.2 }] }

/-- One full step of the main pass for candidate `j`. -/
def mcStep (cands : List Cand) (p1D p2D : List Nat) (st : GenState) (j : Nat) : GenState :=
  mcDecay cands p1D p2D j (mcProduction cands j st)

/-- The main pass of `ConvertMCParticles` run over the first `k` candidates in
index order, starting from all slots unset, with the pre-pass daughter sets. -/
def mcRun (cands : List Cand) (k : Nat) : GenState :=
  (List.range k).foldl
    (mcStep cands (primaryDaughters cands 0) (primaryDaughters cands 1))
    { slots := List.replicate cands.length (-1, -1), parts := [], vtxs := [] }

/-- `ConvertMCParticles`: the pre-pass daughter correction followed by the main
pass over all candidates in index order, starting from all slots unset. -/
def convertMCParticles (cands : List Cand) : GenState :=
  mcRun cands cands.length

/-! ### Concrete inputs used in the claim theorems -/

/-- Two coincident children (indices 0,1, same position, mother 2) processed
before their parent 2 (which lists daughters `[0,1]`). -/
def exChildrenFirst : List Cand :=
  [Cand.mk { x := 5, t := 0, M1 := 2, M2 := 2 } [],
   Cand.mk { x := 5, t := 0, M1 := 2, M2 := 2 } [],
   Cand.mk { M1 := -1, D1 := 0, D2 := 1 } []]

/-- The same decay relabelled with the parent first. -/
def exParentFirst : List Cand :=
  [Cand.mk { M1 := -1, D1 := 1, D2 := 2 } [],
   Cand.mk { x := 5, M1 := 0, M2 := 0 } [],
   Cand.mk { x := 5, M1 := 0, M2 := 0 } []]

/-- A parent whose two daughters record different positions (x=1 and x=2). -/
def exSplitDaughters : List Cand :=
  [Cand.mk { M1 := -1, D1 := 1, D2 := 2 } [],
   Cand.mk { x := 1, M1 := 0, M2 := 0 } [],
   Cand.mk { x := 2, M1 := 0, M2 := 0 } []]

/-- The spec's beam scenario with broken parent links: beams 0,1 declare
daughters `[2,3]`, but candidates 2 and 3 both list only parent 0 — in
particular candidate 3's parent range does not include index 1. -/
def exBeamBroken : List Cand :=
  [Cand.mk { M1 := -1, D1 := 2, D2 := 3 } [],
   Cand.mk { M1 := -1, D1 := 2, D2 := 3, x := 1 } [],
   Cand.mk { M1 := 0, M2 := 0, x := 2 } [],
   Cand.mk { M1 := 0, M2 := 0, x := 3 } []]

/-- The beam scenario with candidate 2 a daughter of beam 0 only and
candidate 3 a daughter of beam 1 only, while both beams still declare
daughters `[2,3]`. -/
def exBeamFixed : List Cand :=
  [Cand.mk { M1 := -1, D1 := 2, D2 := 3 } [],
   Cand.mk { M1 := -1, D1 := 2, D2 := 3, x := 1 } [],
   Cand.mk { M1 := 0, M2 := 0, x := 2 } [],
   Cand.mk { M1 := 1, M2 := 1, x := 3 } []]

/-- A parent (time 7) and its daughter (time 9) sharing one decay vertex. -/
def exCtau : List Cand :=
  [Cand.mk { M1 := -1, D1 := 1, D2 := 1, t := 7 } [],
   Cand.mk { x := 4, t := 9, M1 := 0, M2 := 0 } []]

/-- A tower candidate (a photon) with no cluster relations. -/
def exTowerPlain : Cand := Cand.mk { pid := 22 } []

/-- A track candidate with an empty related-candidate list. -/
def exTrackNoRel : Cand := Cand.mk {} []

/-- A tower with two clusters, each relating to generated-particle index 5
(unique identifier 6). -/
def exTowerTwoClusters : Cand :=
  Cand.mk {} [Cand.mk {} [Cand.mk { uid := 6 } []],
              Cand.mk {} [Cand.mk { uid := 6 } []]]

/-- Three missing-energy candidates. -/
def exMET3 : List Cand :=
  [Cand.mk { pt := 10 } [], Cand.mk { pt := 20 } [], Cand.mk { pt := 30 } []]

/-- Two scalar-HT candidates (length mismatch with `exMET3`). -/
def exSHT2 : List Cand := [Cand.mk { pt := 1 } [], Cand.mk { pt := 2 } []]

/-- Three scalar-HT candidates (length match with `exMET3`). -/
def exSHT3 : List Cand :=
  [Cand.mk { pt := 1 } [], Cand.mk { pt := 2 } [], Cand.mk { pt := 3 } []]

/-- A mid-pass state in which both slots of candidate 1 are already set. -/
def stReuse : GenState :=
  { slots := [(0, 0), (2, 3)],
    parts := [{ endV := some (0, { x := 9, y := 9, z := 9, ctau := 9 }) }],
    vtxs := [] }

/-- A candidate array whose entry 1 has both a parent and a child range. -/
def exReuseCands : List Cand :=
  [Cand.mk {} [], Cand.mk { M1 := 0, M2 := 0, D1 := 0, D2 := 0 } []]

/-- A candidate array whose entry 1 creates both of its vertices afresh. -/
def exFresh : List Cand :=
  [Cand.mk {} [],
   Cand.mk { x := 11, y := 12, z := 13, t := 14, M1 := 2, M2 := 2, D1 := 2, D2 := 2 } [],
   Cand.mk { x := 21, t := 22 } []]

/-- A single self-referencing candidate with an unset slot pair. -/
def exSelf : List Cand :=
  [Cand.mk { x := 3, t := 5, M1 := 0, M2 := 0, D1 := 0, D2 := 0 } []]

/-- The all-unset one-candidate state. -/
def stUnset : GenState :=
  { slots := [(-1, -1)], parts := [], vtxs := [] }

/-- An in-range leaf (a true generated particle, identifier 2, index 1). -/
def exLeafGen : Cand := Cand.mk { uid := 2 } []

/-- A pass-through intermediate node (identifier 9, out of range 3) whose sole
relation is `exLeafGen`. -/
def exWrapped : Cand := Cand.mk { uid := 9 } [exLeafGen]

/-! ### Basic list lemmas -/

theorem mem_setInsert {x a : Int} : ∀ {l : List Int}, x ∈ setInsert a l ↔ x = a ∨ x ∈ l
  | [] => by simp [setInsert]
  | b :: l => by
    by_cases h1 : a < b
    · simp [setInsert, h1]
    · by_cases h2 : a = b
      · subst h2; simp [setInsert, h1]
      · simp only [setInsert, if_neg h1, if_neg h2, List.mem_cons,
          mem_setInsert (l := l)]
        tauto

theorem pairwise_setInsert {a : Int} :
    ∀ {l : List Int}, l.Pairwise (· < ·) → (setInsert a l).Pairwise (· < ·)
  | [], _ => by simp [setInsert]
  | b :: l, h => by
    rcases List.pairwise_cons.mp h with ⟨hb, hl⟩
    by_cases h1 : a < b
    · simp only [setInsert, if_pos h1]
      refine List.pairwise_cons.mpr ⟨?_, h⟩
      intro y hy
      rcases List.mem_cons.mp hy with rfl | hy
      · exact h1
      · exact lt_trans h1 (hb y hy)
    · by_cases h2 : a = b
      · subst h2; simpa [setInsert, h1] using h
      · have hba : b < a := by omega
        simp only [setInsert, if_neg h1, if_neg h2]
        refine List.pairwise_cons.mpr ⟨?_, pairwise_setInsert hl⟩
        intro y hy
        rcases mem_setInsert.mp hy with rfl | hy
        · exact hba
        · exact hb y hy

theorem nodup_of_pairwise_lt {l : List Int} (h : l.Pairwise (· < ·)) : l.Nodup :=
  h.imp (fun hab => ne_of_lt hab)

theorem getD_set {α} (l : List α) (i k : Nat) (a d : α) :
    (l.set i a).getD k d = if i = k ∧ i < l.length then a else l.getD k d := by
  rw [List.getD_eq_getElem?_getD, List.getElem?_set, List.getD_eq_getElem?_getD]
  by_cases h1 : i = k
  · subst h1
    by_cases h2 : i < l.length
    · simp [h2]
    · simp [h2, List.getElem?_eq_none (le_of_not_lt h2)]
  · simp [h1]

theorem getD_snoc_self {α} (l : List α) (p d : α) : (l ++ [p]).getD l.length d = p := by
  induction l with
  | nil => rfl
  | cons x xs ih => exact ih

theorem getD_snoc_lt {α} (l : List α) (p d : α) {n : Nat} (h : n < l.length) :
    (l ++ [p]).getD n d = l.getD n d :=
  List.getD_append l [p] d n h

theorem getD_map_lt {α β} (f : α → β) (l : List α) (j : Nat) (d : β) (d' : α)
    (h : j < l.length) : (l.map f).getD j d = f (l.getD j d') := by
  rw [List.getD_eq_getElem?_getD, List.getElem?_map, List.getD_eq_getElem?_getD,
    List.getElem?_eq_getElem h]
  rfl

theorem getD_range_lt {j k : Nat} (d : Nat) (h : j < k) : (List.range k).getD j d = j := by
  rw [List.getD_eq_getElem?_getD, List.getElem?_eq_getElem (by simpa using h)]
  simp [List.getElem_range]

theorem mem_intRangeAux (x : Int) : ∀ (n : Nat) (a : Int),
    x ∈ intRangeAux a n ↔ a ≤ x ∧ x < a + n := by
  intro n
  induction n with
  | zero => intro a; simp [intRangeAux]
  | succ n ih =>
    intro a
    rw [intRangeAux, List.mem_cons, ih (a + 1)]
    omega

theorem mem_intRange (a b x : Int) : x ∈ intRange a b ↔ a ≤ x ∧ x ≤ b := by
  rw [intRange, mem_intRangeAux]
  omega

/-! ### Slot-propagation lemmas: first writer wins -/

theorem setFstIfUnset_snd (j : Int) (sl : List (Int × Int)) (i : Int) (k : Nat) :
    ((setFstIfUnset j sl i).getD k (-1, -1)).2 = (sl.getD k (-1, -1)).2 := by
  unfold setFstIfUnset
  split
  · rw [getD_set]
    split
    · rename_i hg hk
      rw [← hk.1]
    · rfl
  · rfl

theorem setFstIfUnset_fst (j : Int) (sl : List (Int × Int)) (i : Int) (k : Nat)
    (h : (sl.getD k (-1, -1)).1 ≠ -1) :
    ((setFstIfUnset j sl i).getD k (-1, -1)).1 = (sl.getD k (-1, -1)).1 := by
  unfold setFstIfUnset
  split
  · rw [getD_set]
    split
    · rename_i hg hk
      exact absurd (hk.1 ▸ hg.2) h
    · rfl
  · rfl

theorem setSndIfUnset_fst (j : Int) (sl : List (Int × Int)) (i : Int) (k : Nat) :
    ((setSndIfUnset j sl i).getD k (-1, -1)).1 = (sl.getD k (-1, -1)).1 := by
  unfold setSndIfUnset
  split
  · rw [getD_set]
    split
    · rename_i hg hk
      rw [← hk.1]
    · rfl
  · rfl

theorem setSndIfUnset_snd (j : Int) (sl : List (Int × Int)) (i : Int) (k : Nat)
    (h : (sl.getD k (-1, -1)).2 ≠ -1) :
    ((setSndIfUnset j sl i).getD k (-1, -1)).2 = (sl.getD k (-1, -1)).2 := by
  unfold setSndIfUnset
  split
  · rw [getD_set]
    split
    · rename_i hg hk
      exact absurd (hk.1 ▸ hg.2) h
    · rfl
  · rfl

theorem propagateToMothers_fst (j m1 m2 : Int) (sl : List (Int × Int)) (k : Nat) :
    ((propagateToMothers j m1 m2 sl).getD k (-1, -1)).1 = (sl.getD k (-1, -1)).1 := by
  unfold propagateToMothers
  generalize intRange m1 m2 = L
  induction L generalizing sl with
  | nil => rfl
  | cons i L ih => rw [List.foldl_cons, ih, setSndIfUnset_fst]

theorem propagateToMothers_snd (j m1 m2 : Int) (sl : List (Int × Int)) (k : Nat)
    (h : (sl.getD k (-1, -1)).2 ≠ -1) :
    ((propagateToMothers j m1 m2 sl).getD k (-1, -1)).2 = (sl.getD k (-1, -1)).2 := by
  unfold propagateToMothers
  generalize intRange m1 m2 = L
  induction L generalizing sl with
  | nil => rfl
  | cons i L ih =>
    rw [List.foldl_cons, ih _ (by rw [setSndIfUnset_snd j sl i k h]; exact h),
      setSndIfUnset_snd j sl i k h]

theorem propagateToDaughters_snd (j d1 d2 : Int) (sl : List (Int × Int)) (k : Nat) :
    ((propagateToDaughters j d1 d2 sl).getD k (-1, -1)).2 = (sl.getD k (-1, -1)).2 := by
  unfold propagateToDaughters
  generalize intRange d1 d2 = L
  induction L generalizing sl with
  | nil => rfl
  | cons i L ih => rw [List.foldl_cons, ih, setFstIfUnset_snd]

theorem propagateToDaughters_fst (j d1 d2 : Int) (sl : List (Int × Int)) (k : Nat)
    (h : (sl.getD k (-1, -1)).1 ≠ -1) :
    ((propagateToDaughters j d1 d2 sl).getD k (-1, -1)).1 = (sl.getD k (-1, -1)).1 := by
  unfold propagateToDaughters
  generalize intRange d1 d2 = L
  induction L generalizing sl with
  | nil => rfl
  | cons i L ih =>
    rw [List.foldl_cons, ih _ (by rw [setFstIfUnset_fst j sl i k h]; exact h),
      setFstIfUnset_fst j sl i k h]

theorem propagateToSet_snd (j : Int) (ds : List Nat) (sl : List (Int × Int)) (k : Nat) :
    ((propagateToSet j ds sl).getD k (-1, -1)).2 = (sl.getD k (-1, -1)).2 := by
  unfold propagateToSet
  induction ds generalizing sl with
  | nil => rfl
  | cons i L ih => rw [List.foldl_cons, ih, setFstIfUnset_snd]

theorem propagateToSet_fst (j : Int) (ds : List Nat) (sl : List (Int × Int)) (k : Nat)
    (h : (sl.getD k (-1, -1)).1 ≠ -1) :
    ((propagateToSet j ds sl).getD k (-1, -1)).1 = (sl.getD k (-1, -1)).1 := by
  unfold propagateToSet
  induction ds generalizing sl with
  | nil => rfl
  | cons i L ih =>
    rw [List.foldl_cons, ih _ (by rw [setFstIfUnset_fst j sl (Int.ofNat i) k h]; exact h),
      setFstIfUnset_fst j sl (Int.ofNat i) k h]


theorem mcProduction_slots_fst (cands : List Cand) (j : Nat) (st : GenState) (k : Nat)
    (h : (st.slots.getD k (-1, -1)).1 ≠ -1) :
    ((mcProduction cands j st).1.slots.getD k (-1, -1)).1 = (st.slots.getD k (-1, -1)).1 := by
  unfold mcProduction
  dsimp only
  split
  · rfl
  · by_cases hs : (st.slots.getD j (-1, -1)).1 ≠ -1
    · simp only [if_pos hs]
      exact propagateToMothers_fst _ _ _ _ _
    · simp only [if_neg hs]
      have hset : ((st.slots.set j ((j : Int), (st.slots.getD j (-1, -1)).2)).getD k
          (-1, -1)).1 = (st.slots.getD k (-1, -1)).1 := by
        rw [getD_set]
        split
        · rename_i hjk
          exact absurd (hjk.1 ▸ h) (by simpa using hs)
        · rfl
      exact (propagateToMothers_fst _ _ _ _ _).trans hset

theorem mcProduction_slots_snd (cands : List Cand) (j : Nat) (st : GenState) (k : Nat)
    (h : (st.slots.getD k (-1, -1)).2 ≠ -1) :
    ((mcProduction cands j st).1.slots.getD k (-1, -1)).2 = (st.slots.getD k (-1, -1)).2 := by
  unfold mcProduction
  dsimp only
  split
  · rfl
  · by_cases hs : (st.slots.getD j (-1, -1)).1 ≠ -1
    · simp only [if_pos hs]
      exact propagateToMothers_snd _ _ _ _ _ h
    · simp only [if_neg hs]
      have hset : ((st.slots.set j ((j : Int), (st.slots.getD j (-1, -1)).2)).getD k
          (-1, -1)).2 = (st.slots.getD k (-1, -1)).2 := by
        rw [getD_set]
        split
        · rename_i hjk
          rw [← hjk.1]
        · rfl
      exact (propagateToMothers_snd _ _ _ _ _ (by rw [hset]; exact h)).trans hset

theorem mcDecay_slots_fst (cands : List Cand) (p1D p2D : List Nat) (j : Nat)
    (stp : GenState × MCPart) (k : Nat)
    (h : (stp.1.slots.getD k (-1, -1)).1 ≠ -1) :
    ((mcDecay cands p1D p2D j stp).slots.getD k (-1, -1)).1
      = (stp.1.slots.getD k (-1, -1)).1 := by
  unfold mcDecay
  dsimp only
  split
  · rfl
  · by_cases he : (stp.1.slots.getD j (-1, -1)).2 ≠ -1
    · simp only [if_pos he]
      split
      · split
        · exact propagateToSet_fst _ _ _ _ h
        · split
          · exact propagateToSet_fst _ _ _ _ h
          · rfl
      · exact propagateToDaughters_fst _ _ _ _ _ h
    · simp only [if_neg he]
      have hset : ((stp.1.slots.set j ((stp.1.slots.getD j (-1, -1)).1,
          (cands.getD j default).d.D1)).getD k (-1, -1)).1
            = (stp.1.slots.getD k (-1, -1)).1 := by
        rw [getD_set]
        split
        · rename_i hjk
          rw [← hjk.1]
        · rfl
      split
      · split
        · exact (propagateToSet_fst _ _ _ _ (by rw [hset]; exact h)).trans hset
        · split
          · exact (propagateToSet_fst _ _ _ _ (by rw [hset]; exact h)).trans hset
          · exact hset
      · exact (propagateToDaughters_fst _ _ _ _ _ (by rw [hset]; exact h)).trans hset

theorem mcDecay_slots_snd (cands : List Cand) (p1D p2D : List Nat) (j : Nat)
    (stp : GenState × MCPart) (k : Nat)
    (h : (stp.1.slots.getD k (-1, -1)).2 ≠ -1) :
    ((mcDecay cands p1D p2D j stp).slots.getD k (-1, -1)).2
      = (stp.1.slots.getD k (-1, -1)).2 := by
  unfold mcDecay
  dsimp only
  split
  · rfl
  · by_cases he : (stp.1.slots.getD j (-1, -1)).2 ≠ -1
    · simp only [if_pos he]
      split
      · split
        · exact propagateToSet_snd _ _ _ _
        · split
          · exact propagateToSet_snd _ _ _ _
          · rfl
      · exact propagateToDaughters_snd _ _ _ _ _
    · simp only [if_neg he]
      have hset : ((stp.1.slots.set j ((stp.1.slots.getD j (-1, -1)).1,
          (cands.getD j default).d.D1)).getD k (-1, -1)).2
            = (stp.1.slots.getD k (-1, -1)).2 := by
        rw [getD_set]
        split
        · rename_i hjk
          exact absurd (hjk.1 ▸ h) (by simpa using he)
        · rfl
      split
      · split
        · exact (propagateToSet_snd _ _ _ _).trans hset
        · split
          · exact (propagateToSet_snd _ _ _ _).trans hset
          · exact hset
      · exact (propagateToDaughters_snd _ _ _ _ _).trans hset

theorem mcStep_slots_fst (cands : List Cand) (p1D p2D : List Nat) (j : Nat)
    (st : GenState) (k : Nat) (h : (st.slots.getD k (-1, -1)).1 ≠ -1) :
    ((mcStep cands p1D p2D st j).slots.getD k (-1, -1)).1 = (st.slots.getD k (-1, -1)).1 := by
  unfold mcStep
  rw [mcDecay_slots_fst _ _ _ _ _ _ (by rw [mcProduction_slots_fst _ _ _ _ h]; exact h)]
  exact mcProduction_slots_fst _ _ _ _ h

theorem mcStep_slots_snd (cands : List Cand) (p1D p2D : List Nat) (j : Nat)
    (st : GenState) (k : Nat) (h : (st.slots.getD k (-1, -1)).2 ≠ -1) :
    ((mcStep cands p1D p2D st j).slots.getD k (-1, -1)).2 = (st.slots.getD k (-1, -1)).2 := by
  unfold mcStep
  rw [mcDecay_slots_snd _ _ _ _ _ _ (by rw [mcProduction_slots_snd _ _ _ _ h]; exact h)]
  exact mcProduction_slots_snd _ _ _ _ h

theorem mcProduction_core (cands : List Cand) (j : Nat) (st : GenState) :
    (mcProduction cands j st).2.core = mcCore (cands.getD j default).d := by
  unfold mcProduction
  dsimp only
  split
  · rfl
  · split
    · rfl
    · rfl

theorem mcProduction_reuse (cands : List Cand) (j : Nat) (st : GenState) (s : Int)
    (hM : (cands.getD j default).d.M1 ≠ -1)
    (hs : (st.slots.getD j (-1, -1)).1 = s) (hne : s ≠ -1) :
    (mcProduction cands j st).1.vtxs = st.vtxs ∧
    (mcProduction cands j st).1.parts = st.parts ∧
    (mcProduction cands j st).2.startV = (st.parts.getD s.toNat default).endV := by
  subst hs
  unfold mcProduction
  simp only [if_neg hM, if_pos hne]
  refine ⟨?_, ?_, ?_⟩ <;> trivial

theorem mcProduction_fresh (cands : List Cand) (j : Nat) (st : GenState)
    (hM : (cands.getD j default).d.M1 ≠ -1)
    (hs : (st.slots.getD j (-1, -1)).1 = -1) :
    (mcProduction cands j st).1.vtxs = st.vtxs ++
      [{ x := (cands.getD j default).d.x, y := (cands.getD j default).d.y,
         z := (cands.getD j default).d.z, ctau := (cands.getD j default).d.t }] ∧
    (mcProduction cands j st).2.startV = some (st.vtxs.length,
      { x := (cands.getD j default).d.x, y := (cands.getD j default).d.y,
        z := (cands.getD j default).d.z, ctau := (cands.getD j default).d.t }) := by
  unfold mcProduction
  simp only [if_neg hM, hs, if_neg (by simp : ¬ (-1 : Int) ≠ -1)]
  refine ⟨?_, ?_⟩ <;> trivial

theorem mcDecay_parts (cands : List Cand) (p1D p2D : List Nat) (j : Nat)
    (stp : GenState × MCPart) :
    ∃ ev, (mcDecay cands p1D p2D j stp).parts = stp.1.parts ++ [{ stp.2 with endV := ev }] := by
  unfold mcDecay
  dsimp only
  split
  · exact ⟨stp.2.endV, by trivial⟩
  · by_cases he : (stp.1.slots.getD j (-1, -1)).2 ≠ -1
    · simp only [if_pos he]
      exact ⟨_, by trivial⟩
    · simp only [if_neg he]
      exact ⟨_, by trivial⟩

theorem mcDecay_reuse (cands : List Cand) (p1D p2D : List Nat) (j : Nat)
    (stp : GenState × MCPart) (e : Int)
    (hD : (cands.getD j default).d.D1 ≠ -1)
    (he : (stp.1.slots.getD j (-1, -1)).2 = e) (hne : e ≠ -1) :
    (mcDecay cands p1D p2D j stp).vtxs = stp.1.vtxs ∧
    (mcDecay cands p1D p2D j stp).parts = stp.1.parts ++
      [{ stp.2 with endV := ((stp.1.parts ++ [stp.2]).getD e.toNat default).startV }] := by
  subst he
  unfold mcDecay
  simp only [if_neg hD, if_pos hne]
  refine ⟨?_, ?_⟩ <;> trivial

theorem mcDecay_fresh (cands : List Cand) (p1D p2D : List Nat) (j : Nat)
    (stp : GenState × MCPart)
    (hD : (cands.getD j default).d.D1 ≠ -1)
    (he : (stp.1.slots.getD j (-1, -1)).2 = -1) :
    (mcDecay cands p1D p2D j stp).vtxs = stp.1.vtxs ++
      [{ x := (cands.getD (cands.getD j default).d.D1.toNat default).d.x,
         y := (cands.getD (cands.getD j default).d.D1.toNat default).d.y,
         z := (cands.getD (cands.getD j default).d.D1.toNat default).d.z,
         ctau := (cands.getD j default).d.t }] ∧
    (mcDecay cands p1D p2D j stp).parts = stp.1.parts ++
      [{ stp.2 with endV := some (stp.1.vtxs.length,
        { x := (cands.getD (cands.getD j default).d.D1.toNat default).d.x,
          y := (cands.getD (cands.getD j default).d.D1.toNat default).d.y,
          z := (cands.getD (cands.getD j default).d.D1.toNat default).d.z,
          ctau := (cands.getD j default).d.t }) }] := by
  unfold mcDecay
  simp only [if_neg hD, he, if_neg (by simp : ¬ (-1 : Int) ≠ -1)]
  refine ⟨?_, ?_⟩ <;> trivial

theorem mcStep_parts (cands : List Cand) (p1D p2D : List Nat) (j : Nat) (st : GenState) :
    ∃ p : MCPart, (mcStep cands p1D p2D st j).parts = st.parts ++ [p] ∧
      p.core = mcCore (cands.getD j default).d := by
  obtain ⟨ev, hev⟩ := mcDecay_parts cands p1D p2D j (mcProduction cands j st)
  have hp1 : (mcProduction cands j st).1.parts = st.parts := by
    unfold mcProduction
    dsimp only
    split
    · rfl
    · split
      · rfl
      · rfl
  refine ⟨{ (mcProduction cands j st).2 with endV := ev }, ?_, ?_⟩
  · show (mcDecay cands p1D p2D j (mcProduction cands j st)).parts = _
    rw [hev, hp1]
  · show (mcProduction cands j st).2.core = _
    exact mcProduction_core cands j st

theorem mcRun_succ (cands : List Cand) (k : Nat) :
    mcRun cands (k + 1) = mcStep cands (primaryDaughters cands 0)
      (primaryDaughters cands 1) (mcRun cands k) k := by
  unfold mcRun
  rw [List.range_succ, List.foldl_append]
  rfl

theorem mcRun_parts_length (cands : List Cand) (k : Nat) :
    (mcRun cands k).parts.length = k := by
  induction k with
  | zero => rfl
  | succ k ih =>
    rw [mcRun_succ]
    obtain ⟨p, hp, _⟩ := mcStep_parts cands _ _ k (mcRun cands k)
    rw [hp, List.length_append, ih]
    rfl

theorem mcRun_parts_core (cands : List Cand) (j k : Nat) (h : j < k) :
    ((mcRun cands k).parts.getD j default).core = mcCore (cands.getD j default).d := by
  induction k with
  | zero => omega
  | succ k ih =>
    rw [mcRun_succ]
    obtain ⟨p, hp, hc⟩ := mcStep_parts cands (primaryDaughters cands 0)
      (primaryDaughters cands 1) k (mcRun cands k)
    rw [hp]
    rcases Nat.lt_succ_iff_lt_or_eq.mp h with h2 | h2
    · rw [getD_snoc_lt _ _ _ (by rw [mcRun_parts_length]; exact h2)]
      exact ih h2
    · subst h2
      have hL := mcRun_parts_length cands j
      generalize hG : (mcRun cands j).parts = L at hL ⊢
      rw [← hL, getD_snoc_self, hL]
      exact hc

/-! ### Resolver lemmas -/

/-- The head step of `findJetPartMCList` on one related candidate. -/
def fjHead (r : Int) (c : Cand) (acc : List Int) : Nat × List Int :=
  if ((c.uid : Int) - 1) < r then ((0 : Nat), setInsert ((c.uid : Int) - 1) acc)
  else findJetPartMC r c acc

theorem findJetPartMC_nil (r : Int) (d : CandData) (acc : List Int) :
    findJetPartMC r (Cand.mk d []) acc = (1, acc) := by
  unfold findJetPartMC
  rfl

theorem findJetPartMC_cons (r : Int) (d : CandData) (rel : List Cand) (acc : List Int)
    (h : ¬ rel.isEmpty) :
    findJetPartMC r (Cand.mk d rel) acc = findJetPartMCList r rel acc := by
  unfold findJetPartMC
  rw [if_neg (by simpa using h)]

theorem findJetPartMCList_nil (r : Int) (acc : List Int) :
    findJetPartMCList r [] acc = (0, acc) := by
  unfold findJetPartMCList
  rfl

theorem findJetPartMCList_cons (r : Int) (c : Cand) (cs : List Cand) (acc : List Int) :
    findJetPartMCList r (c :: cs) acc =
      ((fjHead r c acc).1 + (findJetPartMCList r cs (fjHead r c acc).2).1,
       (findJetPartMCList r cs (fjHead r c acc).2).2) := by
  conv_lhs => unfold findJetPartMCList
  rfl

theorem findJetPartMCList_append (r : Int) (l1 l2 : List Cand) (acc : List Int) :
    findJetPartMCList r (l1 ++ l2) acc =
      ((findJetPartMCList r l1 acc).1 +
        (findJetPartMCList r l2 (findJetPartMCList r l1 acc).2).1,
       (findJetPartMCList r l2 (findJetPartMCList r l1 acc).2).2) := by
  induction l1 generalizing acc with
  | nil => simp [findJetPartMCList_nil]
  | cons c cs ih =>
    rw [List.cons_append, findJetPartMCList_cons, ih, findJetPartMCList_cons]
    dsimp only
    rw [Nat.add_assoc]

theorem findJetPartMC_acc_elim (r : Int) : ∀ n : Nat,
    (∀ t : Cand, sizeOf t ≤ n → ∀ acc x,
      x ∈ (findJetPartMC r t acc).2 ↔ x ∈ acc ∨ x ∈ (findJetPartMC r t []).2) ∧
    (∀ l : List Cand, sizeOf l ≤ n → ∀ acc x,
      x ∈ (findJetPartMCList r l acc).2 ↔ x ∈ acc ∨ x ∈ (findJetPartMCList r l []).2) := by
  intro n
  induction n with
  | zero =>
    constructor
    · rintro ⟨d, rel⟩ ht
      simp only [Cand.mk.sizeOf_spec] at ht
      omega
    · intro l hl
      cases l with
      | nil =>
        simp only [List.nil.sizeOf_spec] at hl
        omega
      | cons a l =>
        simp only [List.cons.sizeOf_spec] at hl
        omega
  | succ n ih =>
    constructor
    · rintro ⟨d, rel⟩ ht acc x
      by_cases hrel : rel.isEmpty
      · have hre : rel = [] := List.isEmpty_iff.mp hrel
        subst hre
        rw [findJetPartMC_nil, findJetPartMC_nil]
        simp
      · rw [findJetPartMC_cons r d rel acc hrel, findJetPartMC_cons r d rel [] hrel]
        refine ih.2 rel ?_ acc x
        simp only [Cand.mk.sizeOf_spec] at ht
        omega
    · intro l hl acc x
      cases l with
      | nil =>
        rw [findJetPartMCList_nil, findJetPartMCList_nil]
        simp
      | cons c cs =>
        have hc : sizeOf c ≤ n := by
          simp only [List.cons.sizeOf_spec] at hl
          omega
        have hcs : sizeOf cs ≤ n := by
          simp only [List.cons.sizeOf_spec] at hl
          omega
        rw [findJetPartMCList_cons, findJetPartMCList_cons]
        dsimp only
        by_cases hid : ((c.uid : Int) - 1) < r
        · simp only [fjHead, if_pos hid]
          rw [ih.2 cs hcs (setInsert ((c.uid : Int) - 1) acc) x,
            ih.2 cs hcs (setInsert ((c.uid : Int) - 1) []) x]
          rw [mem_setInsert, mem_setInsert]
          simp only [List.not_mem_nil, or_false]
          tauto
        · simp only [fjHead, if_neg hid]
          rw [ih.2 cs hcs (findJetPartMC r c acc).2 x,
            ih.2 cs hcs (findJetPartMC r c []).2 x,
            ih.1 c hc acc x]
          tauto

theorem findJetPartMC_mem_acc (r : Int) (t : Cand) (acc : List Int) (x : Int) :
    x ∈ (findJetPartMC r t acc).2 ↔ x ∈ acc ∨ x ∈ (findJetPartMC r t []).2 :=
  (findJetPartMC_acc_elim r (sizeOf t)).1 t le_rfl acc x

theorem findJetPartMCList_mem_acc (r : Int) (l : List Cand) (acc : List Int) (x : Int) :
    x ∈ (findJetPartMCList r l acc).2 ↔ x ∈ acc ∨ x ∈ (findJetPartMCList r l []).2 :=
  (findJetPartMC_acc_elim r (sizeOf l)).2 l le_rfl acc x

/-! ### Tower-resolution lemmas -/

theorem towerRefStep_mem (nMC : Nat) (a : List Int × Nat) (rc : Cand) (x : Int) :
    x ∈ (towerRefStep nMC a rc).1 ↔
      (x = (rc.uid : Int) - 1 ∧ 0 ≤ x ∧ x < (nMC : Int)) ∨ x ∈ a.1 := by
  unfold towerRefStep
  dsimp only
  split
  · rename_i h
    rw [mem_setInsert]
    constructor
    · rintro (rfl | hx)
      · exact Or.inl ⟨rfl, h⟩
      · exact Or.inr hx
    · rintro (⟨rfl, _⟩ | hx)
      · exact Or.inl rfl
      · exact Or.inr hx
  · rename_i h
    constructor
    · exact Or.inr
    · rintro (⟨rfl, hb⟩ | hx)
      · exact absurd hb h
      · exact hx

theorem towerFoldRefs_mem (nMC : Nat) (rcs : List Cand) (a : List Int × Nat) (x : Int) :
    x ∈ (rcs.foldl (towerRefStep nMC) a).1 ↔
      x ∈ a.1 ∨ ∃ rc ∈ rcs, x = (rc.uid : Int) - 1 ∧ 0 ≤ x ∧ x < (nMC : Int) := by
  induction rcs generalizing a with
  | nil => simp
  | cons rc rcs ih =>
    rw [List.foldl_cons, ih, towerRefStep_mem]
    constructor
    · rintro ((hA | hB) | ⟨rc', hm, hp⟩)
      · exact Or.inr ⟨rc, List.mem_cons_self rc rcs, hA⟩
      · exact Or.inl hB
      · exact Or.inr ⟨rc', List.mem_cons_of_mem rc hm, hp⟩
    · rintro (hB | ⟨rc', hm, hp⟩)
      · exact Or.inl (Or.inr hB)
      · rcases List.mem_cons.mp hm with rfl | hm
        · exact Or.inl (Or.inl hp)
        · exact Or.inr ⟨rc', hm, hp⟩

theorem towerFoldRefs_warn (nMC : Nat) (rcs : List Cand) (a : List Int × Nat) :
    (rcs.foldl (towerRefStep nMC) a).2 = a.2 + rcs.countP
      (fun rc => !decide (0 ≤ (rc.uid : Int) - 1 ∧ (rc.uid : Int) - 1 < (nMC : Int))) := by
  induction rcs generalizing a with
  | nil => simp
  | cons rc rcs ih =>
    rw [List.foldl_cons, ih, List.countP_cons]
    unfold towerRefStep
    dsimp only
    split
    · rename_i h
      simp [h]
    · rename_i h
      simp only [decide_eq_false h, Bool.not_false, eq_self_iff_true, if_true]
      omega

theorem towerFoldRefs_pairwise (nMC : Nat) (rcs : List Cand) (a : List Int × Nat)
    (h : a.1.Pairwise (· < ·)) : ((rcs.foldl (towerRefStep nMC) a).1).Pairwise (· < ·) := by
  induction rcs generalizing a with
  | nil => exact h
  | cons rc rcs ih =>
    rw [List.foldl_cons]
    apply ih
    unfold towerRefStep
    dsimp only
    split
    · exact pairwise_setInsert h
    · exact h

theorem towerFoldCls_mem (nMC : Nat) (clsl : List Cand) (a : List Int × Nat) (x : Int) :
    x ∈ (clsl.foldl (fun acc cls => cls.rel.foldl (towerRefStep nMC) acc) a).1 ↔
      x ∈ a.1 ∨ ∃ cls ∈ clsl, ∃ rc ∈ cls.rel,
        x = (rc.uid : Int) - 1 ∧ 0 ≤ x ∧ x < (nMC : Int) := by
  induction clsl generalizing a with
  | nil => simp
  | cons cls clsl ih =>
    rw [List.foldl_cons, ih, towerFoldRefs_mem]
    constructor
    · rintro ((hB | ⟨rc', hm, hp⟩) | ⟨cls', hcm, hrc⟩)
      · exact Or.inl hB
      · exact Or.inr ⟨cls, List.mem_cons_self cls clsl, rc', hm, hp⟩
      · exact Or.inr ⟨cls', List.mem_cons_of_mem cls hcm, hrc⟩
    · rintro (hB | ⟨cls', hcm, hrc⟩)
      · exact Or.inl (Or.inl hB)
      · rcases List.mem_cons.mp hcm with rfl | hcm
        · exact Or.inl (Or.inr hrc)
        · exact Or.inr ⟨cls', hcm, hrc⟩

theorem towerFoldCls_warn (nMC : Nat) (clsl : List Cand) (a : List Int × Nat) :
    (clsl.foldl (fun acc cls => cls.rel.foldl (towerRefStep nMC) acc) a).2 =
      a.2 + ((clsl.map Cand.rel).flatten).countP
        (fun rc => !decide (0 ≤ (rc.uid : Int) - 1 ∧ (rc.uid : Int) - 1 < (nMC : Int))) := by
  induction clsl generalizing a with
  | nil => simp
  | cons cls clsl ih =>
    rw [List.foldl_cons, ih, List.map_cons, List.flatten_cons, List.countP_append,
      towerFoldRefs_warn]
    omega

theorem towerFoldCls_pairwise (nMC : Nat) (clsl : List Cand) (a : List Int × Nat)
    (h : a.1.Pairwise (· < ·)) :
    ((clsl.foldl (fun acc cls => cls.rel.foldl (towerRefStep nMC) acc) a).1).Pairwise
      (· < ·) := by
  induction clsl generalizing a with
  | nil => exact h
  | cons cls clsl ih =>
    rw [List.foldl_cons]
    exact ih _ (towerFoldRefs_pairwise nMC cls.rel a h)

theorem towerResolve_mem (nMC : Nat) (c : Cand) (x : Int) :
    x ∈ (towerResolve nMC c).1 ↔
      ∃ cls ∈ c.rel, ∃ rc ∈ cls.rel, x = (rc.uid : Int) - 1 ∧ 0 ≤ x ∧ x < (nMC : Int) := by
  unfold towerResolve
  rw [towerFoldCls_mem]
  simp

theorem towerResolve_warn (nMC : Nat) (c : Cand) :
    (towerResolve nMC c).2 = ((c.rel.map Cand.rel).flatten).countP
      (fun rc => !decide (0 ≤ (rc.uid : Int) - 1 ∧ (rc.uid : Int) - 1 < (nMC : Int))) := by
  unfold towerResolve
  rw [towerFoldCls_warn]
  simp

theorem towerResolve_nodup (nMC : Nat) (c : Cand) : (towerResolve nMC c).1.Nodup := by
  apply nodup_of_pairwise_lt
  unfold towerResolve
  exact towerFoldCls_pairwise nMC c.rel ([], 0) (by simp)

/-! ### Further structural lemmas -/

theorem getD_snoc_of_length {α} (l : List α) (p d : α) (n : Nat) (h : n = l.length) :
    (l ++ [p]).getD n d = p := by
  subst h
  exact getD_snoc_self l p d

theorem mcProduction_parts (cands : List Cand) (j : Nat) (st : GenState) :
    (mcProduction cands j st).1.parts = st.parts := by
  unfold mcProduction
  dsimp only
  split
  · rfl
  · split
    · rfl
    · rfl

theorem mcRun_parts_stable (cands : List Cand) (j : Nat) :
    ∀ k, j < k → (mcRun cands k).parts.getD j default
      = (mcRun cands (j + 1)).parts.getD j default := by
  intro k
  induction k with
  | zero => omega
  | succ k ih =>
    intro h
    rcases Nat.lt_succ_iff_lt_or_eq.mp h with h2 | h2
    · rw [mcRun_succ]
      obtain ⟨p, hp, _⟩ := mcStep_parts cands (primaryDaughters cands 0)
        (primaryDaughters cands 1) k (mcRun cands k)
      rw [hp, getD_snoc_lt _ _ _ (by rw [mcRun_parts_length]; omega)]
      exact ih h2
    · rw [h2]

theorem mem_primaryDaughters (cands : List Cand) (beam : Int) (j : Nat) :
    j ∈ primaryDaughters cands beam ↔
      j < cands.length ∧ (cands.getD j default).d.M1 ≠ -1 ∧
        (cands.getD j default).d.M1 ≤ beam ∧ beam ≤ (cands.getD j default).d.M2 := by
  unfold primaryDaughters
  rw [List.mem_filter, List.mem_range]
  simp only [decide_eq_true_eq, mem_intRange]

/-! ### Claim theorems -/

/-- Claim C1, counterexample: when two coincident children (same position,
mutual parent/child links with candidate 2) are processed before their parent,
`ConvertMCParticles` creates two vertex objects for the single physical point
(candidate 1's production vertex is not the reused object attached as
candidate 2's decay vertex), while the parent-first relabelling of the same
decay yields one vertex — so the vertex count and grouping are not independent
of visitation order and a coincident pair can be duplicated. -/
theorem C1_counterexample :
    ((1 : Int) ∈ intRange (exChildrenFirst.getD 2 default).d.D1
      (exChildrenFirst.getD 2 default).d.D2) ∧
    ((2 : Int) ∈ intRange (exChildrenFirst.getD 1 default).d.M1
      (exChildrenFirst.getD 1 default).d.M2) ∧
    (exChildrenFirst.getD 0 default).d.x = (exChildrenFirst.getD 1 default).d.x ∧
    (convertMCParticles exChildrenFirst).vtxs.length = 2 ∧
    (convertMCParticles exChildrenFirst).vtxs.getD 0 default
      = (convertMCParticles exChildrenFirst).vtxs.getD 1 default ∧
    ((convertMCParticles exChildrenFirst).parts.getD 1 default).startV ≠
      ((convertMCParticles exChildrenFirst).parts.getD 2 default).endV ∧
    (convertMCParticles exParentFirst).vtxs.length = 1 := by decide

/-- Claim C1 (amended): the slot propagation is first-writer-wins — a start or
end slot already set is never changed by a later step — and a candidate whose
start (resp. end) slot is already set at its own turn creates no vertex in
that phase and instead attaches the recorded particle's end (resp. start)
vertex.  (Duplication is still possible when several children precede their
shared parent, so order independence of the vertex count does not hold.) -/
theorem C1_amended_first_writer_wins (cands : List Cand) (p1D p2D : List Nat)
    (j : Nat) (st : GenState) (k : Nat) (s e : Int) :
    ((st.slots.getD k (-1, -1)).1 ≠ -1 →
      ((mcStep cands p1D p2D st j).slots.getD k (-1, -1)).1
        = (st.slots.getD k (-1, -1)).1) ∧
    ((st.slots.getD k (-1, -1)).2 ≠ -1 →
      ((mcStep cands p1D p2D st j).slots.getD k (-1, -1)).2
        = (st.slots.getD k (-1, -1)).2) ∧
    ((cands.getD j default).d.M1 ≠ -1 → (st.slots.getD j (-1, -1)).1 = s → s ≠ -1 →
      (mcProduction cands j st).1.vtxs = st.vtxs ∧
      (mcProduction cands j st).2.startV = (st.parts.getD s.toNat default).endV) ∧
    ((cands.getD j default).d.D1 ≠ -1 →
      ((mcProduction cands j st).1.slots.getD j (-1, -1)).2 = e → e ≠ -1 →
      (mcStep cands p1D p2D st j).vtxs = (mcProduction cands j st).1.vtxs ∧
      (mcStep cands p1D p2D st j).parts = (mcProduction cands j st).1.parts ++
        [{ (mcProduction cands j st).2 with
            endV := (((mcProduction cands j st).1.parts ++
              [(mcProduction cands j st).2]).getD e.toNat default).startV }]) := by
  refine ⟨mcStep_slots_fst cands p1D p2D j st k,
    mcStep_slots_snd cands p1D p2D j st k, ?_, ?_⟩
  · intro hM hs hne
    obtain ⟨h1, _, h3⟩ := mcProduction_reuse cands j st s hM hs hne
    exact ⟨h1, h3⟩
  · intro hD he hne
    exact mcDecay_reuse cands p1D p2D j (mcProduction cands j st) e hD he hne

/-- Claim C1 witness: the amended theorem instantiated on a concrete mid-pass
state in which candidate 1 has both slots already set. -/
theorem C1_amended_witness :
    ((mcStep exReuseCands [] [] stReuse 1).slots.getD 0 (-1, -1)).1
        = (stReuse.slots.getD 0 (-1, -1)).1 ∧
    ((mcStep exReuseCands [] [] stReuse 1).slots.getD 0 (-1, -1)).2
        = (stReuse.slots.getD 0 (-1, -1)).2 ∧
    ((mcProduction exReuseCands 1 stReuse).1.vtxs = stReuse.vtxs ∧
      (mcProduction exReuseCands 1 stReuse).2.startV
        = (stReuse.parts.getD (2 : Int).toNat default).endV) ∧
    ((mcStep exReuseCands [] [] stReuse 1).vtxs
        = (mcProduction exReuseCands 1 stReuse).1.vtxs ∧
      (mcStep exReuseCands [] [] stReuse 1).parts
        = (mcProduction exReuseCands 1 stReuse).1.parts ++
          [{ (mcProduction exReuseCands 1 stReuse).2 with
              endV := (((mcProduction exReuseCands 1 stReuse).1.parts ++
                [(mcProduction exReuseCands 1 stReuse).2]).getD (3 : Int).toNat
                  default).startV }]) := by
  have h := C1_amended_first_writer_wins exReuseCands [] [] 1 stReuse 0 2 3
  exact ⟨h.1 (by decide), h.2.1 (by decide),
    h.2.2.1 (by decide) (by decide) (by decide),
    h.2.2.2 (by decide) (by decide) (by decide)⟩

/-- Claim C2, failing input: a track with an empty related-candidate list is
classified `Unmatched` and raises one warning, yet the converter still appends
one association record (with both ends unset) to the association collection,
because `ascColParticlesToMC->create()` runs before the match check — the
spec's "emit no association" is violated by the code. -/
theorem C2_unmatched_track_association :
    (convertTracks [exTrackNoRel] 5).1.length = 1 ∧
    ((convertTracks [exTrackNoRel] 5).1.getD 0 default).bits
      = some PStatus.kUnmatched ∧
    (convertTracks [exTrackNoRel] 5).2.1 = [{ recP := none, simP := none }] ∧
    (convertTracks [exTrackNoRel] 5).2.2 = 1 := by decide

/-- Claim C3, counterexample: candidate 2's start vertex is the decay vertex
created by its parent at the position of the parent's FIRST daughter (x=1),
which differs from candidate 2's own position (x=2) — so a reused start
vertex need not carry the particle's own position. -/
theorem C3_counterexample :
    ((convertMCParticles exSplitDaughters).parts.getD 2 default).startV =
      some (0, { x := 1, y := 0, z := 0, ctau := 0 }) ∧
    (exSplitDaughters.getD 2 default).d.x = 2 := by decide

/-- Claim C3 (amended): whenever the vertex is created freshly at candidate
`j`'s own step (the slot is still unset at its turn), the start vertex's point
equals the candidate's own position and the end vertex's point equals the
first child's position; a reused vertex instead carries its creator's point. -/
theorem C3_amended_fresh_vertex_points (cands : List Cand) (j : Nat)
    (hj : j < cands.length) :
    ((cands.getD j default).d.M1 ≠ -1 →
      ((mcRun cands j).slots.getD j (-1, -1)).1 = -1 →
      ((convertMCParticles cands).parts.getD j default).startV =
        some ((mcRun cands j).vtxs.length,
          { x := (cands.getD j default).d.x, y := (cands.getD j default).d.y,
            z := (cands.getD j default).d.z, ctau := (cands.getD j default).d.t })) ∧
    ((cands.getD j default).d.D1 ≠ -1 →
      ((mcProduction cands j (mcRun cands j)).1.slots.getD j (-1, -1)).2 = -1 →
      ((convertMCParticles cands).parts.getD j default).endV =
        some ((mcProduction cands j (mcRun cands j)).1.vtxs.length,
          { x := (cands.getD (cands.getD j default).d.D1.toNat default).d.x,
            y := (cands.getD (cands.getD j default).d.D1.toNat default).d.y,
            z := (cands.getD (cands.getD j default).d.D1.toNat default).d.z,
            ctau := (cands.getD j default).d.t })) := by
  have hstable : (convertMCParticles cands).parts.getD j default
      = (mcRun cands (j + 1)).parts.getD j default := by
    unfold convertMCParticles
    exact mcRun_parts_stable cands j cands.length hj
  constructor
  · intro hM hs
    rw [hstable, mcRun_succ]
    obtain ⟨ev, hev⟩ := mcDecay_parts cands (primaryDaughters cands 0)
      (primaryDaughters cands 1) j (mcProduction cands j (mcRun cands j))
    have hparts : (mcStep cands (primaryDaughters cands 0) (primaryDaughters cands 1)
        (mcRun cands j) j).parts
        = (mcRun cands j).parts ++
          [{ (mcProduction cands j (mcRun cands j)).2 with endV := ev }] := by
      show (mcDecay cands (primaryDaughters cands 0) (primaryDaughters cands 1) j
        (mcProduction cands j (mcRun cands j))).parts = _
      rw [hev, mcProduction_parts]
    rw [hparts, getD_snoc_of_length _ _ _ j (mcRun_parts_length cands j).symm]
    show (mcProduction cands j (mcRun cands j)).2.startV = _
    exact (mcProduction_fresh cands j (mcRun cands j) hM hs).2
  · intro hD he
    rw [hstable, mcRun_succ]
    obtain ⟨hv, hp⟩ := mcDecay_fresh cands (primaryDaughters cands 0)
      (primaryDaughters cands 1) j (mcProduction cands j (mcRun cands j)) hD he
    have hparts : (mcStep cands (primaryDaughters cands 0) (primaryDaughters cands 1)
        (mcRun cands j) j).parts
        = (mcRun cands j).parts ++
          [{ (mcProduction cands j (mcRun cands j)).2 with
              endV := some ((mcProduction cands j (mcRun cands j)).1.vtxs.length,
                { x := (cands.getD (cands.getD j default).d.D1.toNat default).d.x,
                  y := (cands.getD (cands.getD j default).d.D1.toNat default).d.y,
                  z := (cands.getD (cands.getD j default).d.D1.toNat default).d.z,
                  ctau := (cands.getD j default).d.t }) }] := by
      show (mcDecay cands (primaryDaughters cands 0) (primaryDaughters cands 1) j
        (mcProduction cands j (mcRun cands j))).parts = _
      rw [hp, mcProduction_parts]
    rw [hparts, getD_snoc_of_length _ _ _ j (mcRun_parts_length cands j).symm]

/-- Claim C3 witness: the amended theorem on a concrete array whose
candidate 1 creates both its vertices afresh. -/
theorem C3_amended_witness :
    ((convertMCParticles exFresh).parts.getD 1 default).startV =
      some (0, { x := 11, y := 12, z := 13, ctau := 14 }) ∧
    ((convertMCParticles exFresh).parts.getD 1 default).endV =
      some (1, { x := 21, y := 0, z := 0, ctau := 14 }) := by
  have h := C3_amended_fresh_vertex_points exFresh 1 (by decide)
  constructor
  · exact (h.1 (by decide) (by decide)).trans (by decide)
  · exact (h.2 (by decide) (by decide)).trans (by decide)

/-- Claim C4: `findJetPartMC` (total on the acyclic relation tree, hence
terminating): on a candidate with no related candidates it returns exactly one
warning and leaves the accumulated set unchanged; for every related candidate
whose resolved index `GetUniqueID()-1` is below the range it adds that index
to the result set, and for every related candidate whose resolved index is not
below the range every index found by recursing into that candidate is in the
result set. -/
theorem C4_resolver_contract (r : Int) (d : CandData) (rel : List Cand) (acc : List Int) :
    (rel = [] → findJetPartMC r (Cand.mk d rel) acc = (1, acc)) ∧
    (∀ c ∈ rel,
      (((c.uid : Int) - 1) < r →
        ((c.uid : Int) - 1) ∈ (findJetPartMC r (Cand.mk d rel) acc).2) ∧
      (¬ ((c.uid : Int) - 1) < r →
        ∀ x ∈ (findJetPartMC r c []).2,
          x ∈ (findJetPartMC r (Cand.mk d rel) acc).2)) := by
  constructor
  · rintro rfl
    exact findJetPartMC_nil r d acc
  · intro c hc
    obtain ⟨l1, l2, rfl⟩ := List.append_of_mem hc
    have hrw : findJetPartMC r (Cand.mk d (l1 ++ c :: l2)) acc
        = findJetPartMCList r (l1 ++ c :: l2) acc :=
      findJetPartMC_cons r d _ acc (by simp)
    constructor
    · intro hid
      rw [hrw, findJetPartMCList_append, findJetPartMCList_cons]
      dsimp only
      rw [findJetPartMCList_mem_acc]
      left
      simp only [fjHead, if_pos hid]
      exact mem_setInsert.mpr (Or.inl rfl)
    · intro hid x hx
      rw [hrw, findJetPartMCList_append, findJetPartMCList_cons]
      dsimp only
      rw [findJetPartMCList_mem_acc]
      left
      simp only [fjHead, if_neg hid]
      exact (findJetPartMC_mem_acc r c _ x).mpr (Or.inr hx)

/-- Claim C4 witness: the resolver contract at a relation-less candidate, at a
direct in-range relation (index 2) and at an out-of-range intermediate whose
recursion finds index 1. -/
theorem C4_resolver_witness :
    findJetPartMC 3 (Cand.mk { uid := 7 } []) [2] = (1, [2]) ∧
    ((2 : Int) ∈ (findJetPartMC 3 (Cand.mk { uid := 7 }
      [Cand.mk { uid := 3 } []]) []).2) ∧
    ((1 : Int) ∈ (findJetPartMC 3 (Cand.mk { uid := 7 } [exWrapped]) []).2) := by
  refine ⟨(C4_resolver_contract 3 { uid := 7 } [] [2]).1 rfl, ?_, ?_⟩
  · exact ((C4_resolver_contract 3 { uid := 7 } [Cand.mk { uid := 3 } []] []).2
      (Cand.mk { uid := 3 } []) (List.mem_cons_self _ _)).1 (by decide)
  · exact ((C4_resolver_contract 3 { uid := 7 } [exWrapped] []).2 exWrapped
      (List.mem_cons_self _ _)).2 (by decide) 1 (by decide)

/-- Claim C5, counterexample: `ConvertTowers` never assigns the `Bits` field —
a tower output particle carries no status-bit classification at all, so it is
not assigned one of `{Beam, Stable, Decayed, Matched, Unmatched}`. -/
theorem C5_counterexample :
    (convertTowers [exTowerPlain] 0).1.length = 1 ∧
    ((convertTowers [exTowerPlain] 0).1.getD 0 default).bits = none := by decide

/-- Claim C5 (amended): generated particles are classified exactly once at
creation — `Beam` if there is no parent range, else `Stable` if there is no
child range, else `Decayed` — and track particles are classified `Matched` or
`Unmatched` by the relation check; tower particles, however, are left with no
classification (`Bits` never assigned). -/
theorem C5_amended_status_bits (cands tracks towers : List Cand)
    (nT nW : Nat) (j : Nat) :
    (j < cands.length →
      ((convertMCParticles cands).parts.getD j default).core.bits =
        some (mcBits (cands.getD j default).d)) ∧
    (j < tracks.length →
      ((convertTracks tracks nT).1.getD j default).bits =
        some (if trackMatched nT (tracks.getD j default) then PStatus.kMatched
              else PStatus.kUnmatched)) ∧
    (j < towers.length →
      ((convertTowers towers nW).1.getD j default).bits = none) := by
  refine ⟨?_, ?_, ?_⟩
  · intro h
    have hc := mcRun_parts_core cands j cands.length h
    unfold convertMCParticles
    rw [hc]
    rfl
  · intro h
    show ((tracks.map (trackParticle nT)).getD j default).bits = _
    rw [getD_map_lt (trackParticle nT) tracks j default default h]
    rfl
  · intro h
    show ((towers.map (fun c => mkBare c.d)).getD j default).bits = _
    rw [getD_map_lt (fun c => mkBare c.d) towers j default default h]
    rfl

/-- Claim C5 witness: the amended classification rules at concrete singleton
inputs (a beam candidate, an unmatched track, a tower). -/
theorem C5_amended_witness :
    ((convertMCParticles [Cand.mk {} []]).parts.getD 0 default).core.bits =
      some (mcBits ([Cand.mk {} []].getD 0 default).d) ∧
    ((convertTracks [exTrackNoRel] 5).1.getD 0 default).bits =
      some (if trackMatched 5 ([exTrackNoRel].getD 0 default) then PStatus.kMatched
            else PStatus.kUnmatched) ∧
    ((convertTowers [exTowerPlain] 0).1.getD 0 default).bits = none := by
  have h := C5_amended_status_bits [Cand.mk {} []] [exTrackNoRel] [exTowerPlain] 5 0 0
  exact ⟨h.1 (by decide), h.2.1 (by decide), h.2.2 (by decide)⟩

/-- Claim C6: the tower resolution collects exactly the in-range indices
reachable through one cluster hop (an out-of-range resolved index is skipped),
the resolved set is duplicate free, one warning is counted per skipped
occurrence, and in the spec's concrete scenario — one tower with two clusters
both resolving to generated-particle index 5 — exactly one association is
created, not two. -/
theorem C6_tower_dedup (nMC : Nat) (c : Cand) :
    (∀ x : Int, x ∈ (towerResolve nMC c).1 ↔
      ∃ cls ∈ c.rel, ∃ rc ∈ cls.rel,
        x = (rc.uid : Int) - 1 ∧ 0 ≤ x ∧ x < (nMC : Int)) ∧
    (towerResolve nMC c).1.Nodup ∧
    (towerResolve nMC c).2 = ((c.rel.map Cand.rel).flatten).countP
      (fun rc => !decide (0 ≤ (rc.uid : Int) - 1 ∧ (rc.uid : Int) - 1 < (nMC : Int))) ∧
    (convertTowers [exTowerTwoClusters] 10).2.1 = [{ recP := some 0, simP := some 5 }] := by
  exact ⟨towerResolve_mem nMC c, towerResolve_nodup nMC c,
    towerResolve_warn nMC c, by decide⟩

/-- Claim C7, counterexample: in the spec's scenario, candidate 3's parent
range `[0,0]` does not include index 1, so the pre-pass records NO known
daughter for beam 1 and the converter attaches candidate 3's start vertex to
beam 0's end vertex, not beam 1's — candidate 3 is not reported as a daughter
of beam 1, contradicting the claim's "even though its native parent range does
not include index 1". -/
theorem C7_counterexample :
    (¬ ((1 : Int) ∈ intRange (exBeamBroken.getD 3 default).d.M1
      (exBeamBroken.getD 3 default).d.M2)) ∧
    primaryDaughters exBeamBroken 1 = [] ∧
    (3 : Nat) ∉ primaryDaughters exBeamBroken 1 ∧
    ((convertMCParticles exBeamBroken).slots.getD 3 (-1, -1)).1 = 0 ∧
    ((convertMCParticles exBeamBroken).parts.getD 3 default).startV ≠
      ((convertMCParticles exBeamBroken).parts.getD 1 default).endV := by decide

/-- Claim C7 (amended): the pre-pass known-daughters set of a beam contains
exactly the candidates whose own parent range includes that beam's index, and
the beam's decay propagation consults only this corrected set, never the
beam's declared child range: with candidate 3 listing parent 1 and candidate 2
listing parent 0 only, beam 1's known daughters are exactly `{3}` (candidate 2
is excluded although it is in beam 1's declared child range `[2,3]`), and the
converter attaches candidate 3's start vertex to beam 1's end vertex. -/
theorem C7_amended_known_daughters (cands : List Cand) (beam : Int) (j : Nat) :
    (j ∈ primaryDaughters cands beam ↔
      j < cands.length ∧ (cands.getD j default).d.M1 ≠ -1 ∧
        (cands.getD j default).d.M1 ≤ beam ∧ beam ≤ (cands.getD j default).d.M2) ∧
    (primaryDaughters exBeamFixed 1 = [3] ∧
      (2 : Nat) ∉ primaryDaughters exBeamFixed 1 ∧
      ((2 : Int) ∈ intRange (exBeamFixed.getD 1 default).d.D1
        (exBeamFixed.getD 1 default).d.D2) ∧
      ((convertMCParticles exBeamFixed).slots.getD 3 (-1, -1)).1 = 1 ∧
      ((convertMCParticles exBeamFixed).parts.getD 3 default).startV =
        ((convertMCParticles exBeamFixed).parts.getD 1 default).endV ∧
      ((convertMCParticles exBeamFixed).parts.getD 3 default).startV ≠ none) := by
  exact ⟨mem_primaryDaughters cands beam j, by decide⟩

/-- Claim C8: on a MET/scalar-HT length mismatch the converter still emits one
MET output per missing-energy entry, sets every output's `ScalarSum` to the
sentinel `-1` and issues exactly one warning for the whole event; with equal
lengths it pairs entry `j` with entry `j` and warns not at all. -/
theorem C8_met_length_mismatch (inMET inSHT : List Cand) (j : Nat) :
    (inMET.length ≠ inSHT.length →
      (convertMET inMET inSHT).2 = 1 ∧
      (convertMET inMET inSHT).1.length = inMET.length ∧
      ∀ m ∈ (convertMET inMET inSHT).1, m.scalarSum = -1) ∧
    (inMET.length = inSHT.length →
      (convertMET inMET inSHT).2 = 0 ∧
      (j < inMET.length →
        (convertMET inMET inSHT).1.getD j default =
          { magnitude := (inMET.getD j default).d.pt,
            phi := (inMET.getD j default).d.mphi,
            scalarSum := (inSHT.getD j default).d.pt })) := by
  constructor
  · intro h
    refine ⟨?_, ?_, ?_⟩
    · unfold convertMET
      simp [h]
    · unfold convertMET
      simp
    · intro m hm
      unfold convertMET at hm
      simp only [List.mem_map] at hm
      obtain ⟨i, hi, rfl⟩ := hm
      simp [h]
  · intro h
    refine ⟨?_, ?_⟩
    · unfold convertMET
      simp [h]
    · intro hj
      unfold convertMET
      dsimp only
      rw [getD_map_lt _ (List.range inMET.length) j default 0 (by simpa using hj),
        getD_range_lt 0 hj]
      simp [h]

/-- Claim C8 witness: MET length 3 against scalar-HT length 2 — one warning,
three outputs, all with `ScalarSum = -1`; and with matching length 3 the
outputs pair index by index. -/
theorem C8_met_witness :
    (convertMET exMET3 exSHT2).2 = 1 ∧
    (convertMET exMET3 exSHT2).1.length = 3 ∧
    ((convertMET exMET3 exSHT2).1.getD 0 default).scalarSum = -1 ∧
    ((convertMET exMET3 exSHT2).1.getD 1 default).scalarSum = -1 ∧
    ((convertMET exMET3 exSHT2).1.getD 2 default).scalarSum = -1 ∧
    (convertMET exMET3 exSHT3).2 = 0 ∧
    (convertMET exMET3 exSHT3).1.getD 1 default =
      { magnitude := 20, phi := 0, scalarSum := 2 } := by
  have h1 := C8_met_length_mismatch exMET3 exSHT2 0
  have h2 := C8_met_length_mismatch exMET3 exSHT3 1
  refine ⟨(h1.1 (by decide)).1, (h1.1 (by decide)).2.1, ?_, ?_, ?_,
    (h2.2 (by decide)).1, ?_⟩
  · exact (h1.1 (by decide)).2.2 _ (by decide)
  · exact (h1.1 (by decide)).2.2 _ (by decide)
  · exact (h1.1 (by decide)).2.2 _ (by decide)
  · exact ((h2.2 (by decide)).2 (by decide)).trans (by decide)

/-- Claim C9: the resolver's result is unchanged when a direct in-range
relation `g` is wrapped in one pass-through intermediate node (an
out-of-range candidate whose sole relation is `g`) — warnings and the resolved
index set are identical. -/
theorem C9_passthrough_invariance (r : Int) (d d' dw : CandData) (l1 l2 : List Cand)
    (g : Cand) (acc : List Int)
    (hg : ((g.uid : Int) - 1) < r) (hw : ¬ (((dw.uid : Nat) : Int) - 1 < r)) :
    findJetPartMC r (Cand.mk d' (l1 ++ Cand.mk dw [g] :: l2)) acc
      = findJetPartMC r (Cand.mk d (l1 ++ g :: l2)) acc := by
  have hhead : ∀ A : List Int, fjHead r (Cand.mk dw [g]) A = fjHead r g A := by
    intro A
    have hw2 : ¬ (((Cand.mk dw [g]).uid : Int) - 1 < r) := hw
    simp only [fjHead, if_neg hw2, if_pos hg]
    rw [findJetPartMC_cons r dw [g] A (by simp), findJetPartMCList_cons,
      findJetPartMCList_nil]
    simp only [fjHead, if_pos hg]
  rw [findJetPartMC_cons r d' _ acc (by simp), findJetPartMC_cons r d _ acc (by simp),
    findJetPartMCList_append, findJetPartMCList_append,
    findJetPartMCList_cons, findJetPartMCList_cons, hhead]

/-- Claim C9 witness: wrapping the direct link to generated particle index 1
(identifier 2, range 3) in the pass-through intermediate with identifier 9
yields the identical resolver result. -/
theorem C9_passthrough_witness :
    findJetPartMC 3 (Cand.mk {} [exWrapped]) []
      = findJetPartMC 3 (Cand.mk {} [exLeafGen]) [] :=
  C9_passthrough_invariance 3 {} {} { uid := 9 } [] [] exLeafGen []
    (by decide) (by decide)

/-- Claim C10: a freshly created decay vertex takes its spatial point from the
first child's position but its `Ctau` from the parent's own time coordinate,
while a freshly created start vertex takes `Ctau` from the candidate's own
time; consequently, in the concrete parent/child input, the child's start
vertex (shared with the parent, reused) has `Ctau` 7 — the parent's time — and
not the child's own time 9. -/
theorem C10_decay_vertex_ctau (cands : List Cand) (p1D p2D : List Nat) (j : Nat)
    (stp : GenState × MCPart) (st : GenState) :
    ((cands.getD j default).d.D1 ≠ -1 → (stp.1.slots.getD j (-1, -1)).2 = -1 →
      (mcDecay cands p1D p2D j stp).vtxs = stp.1.vtxs ++
        [{ x := (cands.getD (cands.getD j default).d.D1.toNat default).d.x,
           y := (cands.getD (cands.getD j default).d.D1.toNat default).d.y,
           z := (cands.getD (cands.getD j default).d.D1.toNat default).d.z,
           ctau := (cands.getD j default).d.t }]) ∧
    ((cands.getD j default).d.M1 ≠ -1 → (st.slots.getD j (-1, -1)).1 = -1 →
      (mcProduction cands j st).2.startV = some (st.vtxs.length,
        { x := (cands.getD j default).d.x, y := (cands.getD j default).d.y,
          z := (cands.getD j default).d.z, ctau := (cands.getD j default).d.t })) ∧
    (((convertMCParticles exCtau).parts.getD 1 default).startV =
        some (0, { x := 4, y := 0, z := 0, ctau := 7 }) ∧
      (exCtau.getD 0 default).d.t = 7 ∧
      (exCtau.getD 1 default).d.t = 9 ∧
      ((convertMCParticles exCtau).parts.getD 0 default).endV =
        ((convertMCParticles exCtau).parts.getD 1 default).startV) := by
  exact ⟨fun hD he => (mcDecay_fresh cands p1D p2D j stp hD he).1,
    fun hM hs => (mcProduction_fresh cands j st hM hs).2, by decide⟩

/-- Claim C10 witness: the fresh-creation rules evaluated on a one-candidate
array (position x=3, time 5, first child = itself). -/
theorem C10_ctau_witness :
    (mcDecay exSelf [] [] 0 (stUnset, default)).vtxs
      = stUnset.vtxs ++ [{ x := 3, y := 0, z := 0, ctau := 5 }] ∧
    (mcProduction exSelf 0 stUnset).2.startV
      = some (0, { x := 3, y := 0, z := 0, ctau := 5 }) := by
  have h := C10_decay_vertex_ctau exSelf [] [] 0 (stUnset, default) stUnset
  constructor
  · exact (h.1 (by decide) (by decide)).trans (by decide)
  · exact (h.2.1 (by decide) (by decide)).trans (by decide)
